import Mathlib

/-!
Verification of the pull-request statistics pipeline of the `boots` repository.

The development shallowly embeds the Go sources:
  * `metrics.go` — `AnalyzePullRequests`, `processPullRequest`,
    `getAllTimelineEventsForPullRequest`, `getDeploymentTimesForSHA`,
    `doesPullRequestHaveIssueAttached`;
  * `main.go` — `getPullRequestsFromLastTwoWeeks`.

Modelling conventions:
  * `time.Time` values are natural numbers of seconds; `0` is Go's zero time
    (`IsZero`).  A `nil` timestamp pointer reads as the zero time through the
    `GetXxx` accessors, exactly as in go-github.
  * `time.Duration` values are integers (seconds); `Duration.Round(time.Hour)`
    rounds to the nearest multiple of 3600 with ties away from zero.
  * Go maps used by the code are built by insertion and only ever read back by
    key, so they are modelled as association lists with insert-or-replace
    (`mapSet`) and first-match lookup (`mapGet`).
  * `sort.Slice` with the strict comparator of `getAllTimelineEventsForPullRequest`
    produces some order that is non-increasing in the compared key; it is
    modelled by an insertion sort with the same key.
  * Paginated remote calls that the code concatenates page by page are given
    the already-concatenated list (pagination is transport, out of scope);
    the exception is the selector of `main.go`, whose early stop interacts
    with pagination, so it receives the list of pages.
  * Go's integer division truncates toward zero: `Int.tdiv`.
    Division by zero panics; a panic of `AnalyzePullRequests` is modelled by
    returning `none`.
  * `float64` arithmetic of the aggregator only ever handles integers and
    half-integers exactly representable in binary, so it is modelled exactly
    (the median of two middle values `a`, `b` converted by `int(...)` is
    `Int.tdiv (a + b) 2`); `int(math.NaN())` — the conversion the code
    performs when `stats.Median` receives an empty slice — is the amd64 value
    `-2^63`.
-/

namespace Boots

/-- A GitHub timeline event, reduced to the fields the code reads:
`GetEvent`, `GetCreatedAt`, `GetSubmittedAt`. -/
structure Timeline where
  event : String
  createdAt : Nat
  submittedAt : Nat
  deriving DecidableEq, Repr

/-- A GitHub pull request, reduced to the fields the code reads.  The events
of `timeline` are the concatenation of the pages returned by
`ListIssueTimeline`, in arrival order (unsorted). -/
structure PullRequest where
  createdAt : Nat
  mergedAt : Nat
  mergeCommitSHA : String
  state : String
  merged : Bool
  headLabel : String
  timeline : List Timeline
  deriving DecidableEq, Repr

/-- A GitHub deployment record, reduced to `GetSHA` and `GetCreatedAt`. -/
structure Deployment where
  sha : String
  createdAt : Nat
  deriving DecidableEq, Repr

/-- `const branchPrefixNoIssue = "noticket"` -/
def branchMarkerNoIssue : String := "noticket"

/-- `const eventReviewRequested = "review_requested"` -/
def eventReviewRequested : String := "review_requested"

/-- `const eventReviewed = "reviewed"` -/
def eventReviewed : String := "reviewed"

/-- `const pullRequestStateClosed = "closed"` -/
def pullRequestStateClosed : String := "closed"

/-- Association-list model of a Go map write `m[k] = v`. -/
def mapSet (m : List (String × Nat)) (k : String) (v : Nat) : List (String × Nat) :=
  match m with
  | [] => [(k, v)]
  | (k0, v0) :: rest => if k0 = k then (k, v) :: rest else (k0, v0) :: mapSet rest k v

/-- Association-list model of a Go map read `v, ok := m[k]`. -/
def mapGet (k : String) : List (String × Nat) → Option Nat
  | [] => none
  | (k0, v0) :: rest => if k0 = k then some v0 else mapGet k rest

/-- The key the comparator of `getAllTimelineEventsForPullRequest` sorts by:
`timeA := e.GetCreatedAt(); if timeA.IsZero() { timeA = e.GetSubmittedAt() }`. -/
def effectiveTime (e : Timeline) : Nat :=
  if e.createdAt = 0 then e.submittedAt else e.createdAt

/-- Insertion step of the descending sort on `effectiveTime`. -/
def insertDesc (e : Timeline) : List Timeline → List Timeline
  | [] => [e]
  | x :: xs =>
    if effectiveTime x ≤ effectiveTime e then e :: x :: xs else x :: insertDesc e xs

/-- `sort.Slice(allEvents, ...)` with comparator `timeA.Sub(timeB).Hours() > 0`,
i.e. strictly greater `effectiveTime` first: the result is a permutation of
the input that is non-increasing in `effectiveTime`. -/
def sortEventsDesc (l : List Timeline) : List Timeline :=
  l.foldr insertDesc []

/-- `getAllTimelineEventsForPullRequest`: the paginated events, concatenated
and then sorted by descending effective time. -/
def getAllTimelineEventsForPullRequest (pr : PullRequest) : List Timeline :=
  sortEventsDesc pr.timeline

/-- The scanning loop of `processPullRequest`: arguments are the remaining
events, the current `timeReviewRequested` and the `isFirstReview` flag;
the result is `(timeReviewRequested, timeReviewed, wasReviewed)`.
The loop `break`s as soon as a `reviewed` event is assigned. -/
def scanTimeline : List Timeline → Nat → Bool → Nat × Nat × Bool
  | [], trr, _ => (trr, 0, false)
  | e :: rest, trr, first =>
    let trr2 := if first ∧ e.event = eventReviewRequested then e.createdAt else trr
    let first2 := if first ∧ e.event = eventReviewRequested then false else first
    if e.event = eventReviewed then (trr2, e.submittedAt, true)
    else scanTimeline rest trr2 first2

/-- Rounding of a non-negative number of seconds to the nearest multiple of
3600, ties upward (= away from zero on this side). -/
def roundHourNat (n : Nat) : Nat :=
  if n % 3600 * 2 < 3600 then n - n % 3600 else n - n % 3600 + 3600

/-- Go's `Duration.Round(time.Hour)`: nearest multiple of 3600 seconds,
ties away from zero. -/
def roundHour (d : Int) : Int :=
  if 0 ≤ d then (roundHourNat d.toNat : Int) else -(roundHourNat (-d).toNat : Int)

/-- `strings.Contains`, on explicit character lists: prefix test. -/
def charsStartWith : List Char → List Char → Bool
  | [], _ => true
  | _ :: _, [] => false
  | c :: cs, d :: ds => c = d && charsStartWith cs ds

/-- `strings.Contains`, on explicit character lists: substring test. -/
def charsContain (sub : List Char) : List Char → Bool
  | [] => charsStartWith sub []
  | c :: t => charsStartWith sub (c :: t) || charsContain sub t

/-- `strings.Contains(s, sub)`. -/
def strContains (s sub : String) : Bool :=
  charsContain sub.toList s.toList

/-- `doesPullRequestHaveIssueAttached`: true iff the head-branch label does
not contain the `"noticket"` marker. -/
def doesPullRequestHaveIssueAttached (pr : PullRequest) : Bool :=
  ! strContains pr.headLabel branchMarkerNoIssue

/-- The first loop of `getDeploymentTimesForSHA`: the `deploymentShas` index
from commit SHA to deployment creation time. -/
def buildDeploymentShas (deployments : List Deployment) : List (String × Nat) :=
  deployments.foldl (fun m d => mapSet m d.sha d.createdAt) []

/-- The second loop of `getDeploymentTimesForSHA`: walks the pull requests,
threading `timeForThisDeployment` (`cur`, zero when not yet established) and
the output map (`acc`).  A direct match only updates `cur`; a non-match is
recorded at `cur` when `cur` is non-zero. -/
def correlateWalk (depShas : List (String × Nat)) :
    List PullRequest → List (String × Nat) → Nat → List (String × Nat)
  | [], acc, _ => acc
  | pr :: rest, acc, cur =>
    match mapGet pr.mergeCommitSHA depShas with
    | some v => correlateWalk depShas rest acc v
    | none =>
      if cur ≠ 0 then correlateWalk depShas rest (mapSet acc pr.mergeCommitSHA cur) cur
      else correlateWalk depShas rest acc cur

/-- `getDeploymentTimesForSHA(deployments, pullRequests)`. -/
def getDeploymentTimesForSHA (deployments : List Deployment) (prs : List PullRequest) :
    List (String × Nat) :=
  correlateWalk (buildDeploymentShas deployments) prs [] 0

/-- The value of the walk's `timeForThisDeployment` variable after a list of
pull requests has been walked, starting from `cur`. -/
def lastMatchFrom (depShas : List (String × Nat)) (cur : Nat) (prs : List PullRequest) : Nat :=
  prs.foldl (fun c pr =>
    match mapGet pr.mergeCommitSHA depShas with
    | some v => v
    | none => c) cur

/-- The walk's "most recent known deployment time" after a list of pull
requests, starting unestablished (zero). -/
def lastMatchTime (depShas : List (String × Nat)) (prs : List PullRequest) : Nat :=
  lastMatchFrom depShas 0 prs

/-- `pullRequestStatistics`. -/
structure PullRequestStatistics where
  timeToReview : Int
  timeToMerge : Int
  timeToProduction : Int
  isTrackedWithIssue : Bool
  wasClosedWithoutMerge : Bool
  wasReviewed : Bool
  wasDeployed : Bool
  deriving DecidableEq, Repr

/-- `processPullRequest(ctx, pr, deployTimesForPullRequests)`. -/
def processPullRequest (deployTimes : List (String × Nat)) (pr : PullRequest) :
    PullRequestStatistics :=
  let scanned := scanTimeline (getAllTimelineEventsForPullRequest pr) pr.createdAt true
  let timeReviewRequested := scanned.1
  let timeReviewed := scanned.2.1
  let timeMerged := pr.mergedAt
  let timeDeployed := (mapGet pr.mergeCommitSHA deployTimes).getD 0
  { timeToReview := roundHour ((timeReviewed : Int) - (timeReviewRequested : Int))
    timeToMerge := roundHour ((timeMerged : Int) - (timeReviewRequested : Int))
    timeToProduction := roundHour ((timeDeployed : Int) - (timeReviewRequested : Int))
    isTrackedWithIssue := doesPullRequestHaveIssueAttached pr
    wasClosedWithoutMerge := decide (pr.state = pullRequestStateClosed ∧ ¬ pr.merged)
    wasReviewed := scanned.2.2
    wasDeployed := decide (timeDeployed ≠ 0) }

/-- `int(stat.TimeToXxx.Hours())` / `float64(stat.TimeToXxx.Hours())`: the
durations reaching the aggregator are whole multiples of 3600 (they are
`Round(time.Hour)` outputs), so their `Hours()` value is the exact integer
quotient. -/
def hrs (d : Int) : Int := Int.tdiv d 3600

/-- The amd64 value of Go's `int(math.NaN())` (implementation-defined in the
Go specification): `stats.Median` returns `NaN` for an empty slice, the code
ignores the error and converts. -/
def goIntOfNaN : Int := -9223372036854775808

/-- Insertion step of the ascending sort used by `stats.Median`. -/
def insertAsc (x : Int) : List Int → List Int
  | [] => [x]
  | y :: ys => if x ≤ y then x :: y :: ys else y :: insertAsc x ys

/-- The ascending sorted copy taken by `stats.Median`. -/
def sortIntAsc (l : List Int) : List Int := l.foldr insertAsc []

/-- Twice the value of `stats.Median(l)` (an integer even when the median is
a half-integer): `none` models the `NaN` returned for an empty slice. -/
def twiceMedian (l : List Int) : Option Int :=
  match l with
  | [] => none
  | _ =>
    let c := sortIntAsc l
    if l.length % 2 = 0 then some (c.getD (l.length / 2 - 1) 0 + c.getD (l.length / 2) 0)
    else some (2 * c.getD (l.length / 2) 0)

/-- `int(median)`: Go's float-to-int conversion truncates toward zero; on the
half-integers produced by `stats.Median` over whole-hour data this is
`Int.tdiv` of the twice-median by 2.  `NaN` converts to `goIntOfNaN`. -/
def goMedianInt (l : List Int) : Int :=
  match twiceMedian l with
  | none => goIntOfNaN
  | some p => Int.tdiv p 2

/-- The `reviewTime` slice of `AnalyzePullRequests`: hour values of
`TimeToReview` over the reviewed statistics, in batch order. -/
def reviewHours (stats : List PullRequestStatistics) : List Int :=
  (stats.filter (·.wasReviewed)).map (fun s => hrs s.timeToReview)

/-- The `timeToMerge` slice of `AnalyzePullRequests`: hour values of
`TimeToMerge` over every statistic, in batch order. -/
def mergeHours (stats : List PullRequestStatistics) : List Int :=
  stats.map (fun s => hrs s.timeToMerge)

/-- The `leadTimeForChanges` slice of `AnalyzePullRequests`: hour values of
`TimeToProduction` over the deployed statistics, in batch order. -/
def leadHours (stats : List PullRequestStatistics) : List Int :=
  (stats.filter (·.wasDeployed)).map (fun s => hrs s.timeToProduction)

/-- `Metrics`. -/
structure Metrics where
  averageReviewTime : Int
  medianReviewTime : Int
  medianTimeToMerge : Int
  medianLeadTimeForChanges : Int
  totalPullRequests : Nat
  pullRequestsWithoutIssue : Nat
  pullRequestsWithReview : Nat
  deriving DecidableEq, Repr

/-- The `Metrics` literal built by `AnalyzePullRequests` (reachable only when
`reviewedPullRequests` is non-zero, see `analyzePullRequests`). -/
def metricsOf (deployments : List Deployment) (prs : List PullRequest) : Metrics :=
  let deployTimes := getDeploymentTimesForSHA deployments prs
  let prStats := prs.map (processPullRequest deployTimes)
  { averageReviewTime :=
      Int.tdiv ((reviewHours prStats).foldl (· + ·) 0)
        (((prStats.filter (·.wasReviewed)).length : Int))
    medianReviewTime := goMedianInt (reviewHours prStats)
    medianTimeToMerge := goMedianInt (mergeHours prStats)
    medianLeadTimeForChanges := goMedianInt (leadHours prStats)
    totalPullRequests := prs.length
    pullRequestsWithoutIssue := (prStats.filter (fun s => ! s.isTrackedWithIssue)).length
    pullRequestsWithReview := (prStats.filter (·.wasReviewed)).length }

/-- `AnalyzePullRequests(ctx, prs)`, with the deployment list that
`ListDeployments` would return passed explicitly.  The division
`totalReviewTime / reviewedPullRequests` panics in Go when no statistic has
`WasReviewed` set; the panic is modelled as `none`. -/
def analyzePullRequests (deployments : List Deployment) (prs : List PullRequest) :
    Option Metrics :=
  let deployTimes := getDeploymentTimesForSHA deployments prs
  let prStats := prs.map (processPullRequest deployTimes)
  if (prStats.filter (·.wasReviewed)).length = 0 then none
  else some (metricsOf deployments prs)

/-! ### Selector (`main.go`) -/

/-- Two weeks in seconds: `weeksAgo := now.Sub(mergedAt).Hours() / (24 * 7)`
reaches 2 exactly when `now - mergedAt ≥ 1209600` seconds. -/
def twoWeeksSeconds : Int := 1209600

/-- `weeksAgo >= 2` for a pull request's merge time. -/
def outsideWindow (now : Nat) (p : PullRequest) : Bool :=
  decide ((now : Int) - (p.mergedAt : Int) ≥ twoWeeksSeconds)

/-- The condition on which the selector's inner loop `return`s: a non-null
merge time at least two weeks old. -/
def stopsSelector (now : Nat) (p : PullRequest) : Bool :=
  decide (p.mergedAt ≠ 0) && outsideWindow now p

/-- Membership in the selector's output: a non-null merge time strictly
newer than the two-week boundary. -/
def inWindow (now : Nat) (p : PullRequest) : Bool :=
  decide (p.mergedAt ≠ 0) && ! outsideWindow now p

/-- The inner loop of `getPullRequestsFromLastTwoWeeks` over one page:
returns the pull requests it appends and whether it `return`ed early. -/
def selectorPage (now : Nat) : List PullRequest → List PullRequest × Bool
  | [] => ([], false)
  | p :: rest =>
    if p.mergedAt = 0 then selectorPage now rest
    else if outsideWindow now p then ([], true)
    else
      let r := selectorPage now rest
      (p :: r.1, r.2)

/-- `getPullRequestsFromLastTwoWeeks`, driven by the list of pages the remote
would serve; the second component counts the pages actually fetched. -/
def getPullRequestsFromLastTwoWeeks (now : Nat) :
    List (List PullRequest) → List PullRequest × Nat
  | [] => ([], 0)
  | pg :: rest =>
    let r := selectorPage now pg
    if r.2 then (r.1, 1)
    else
      let r2 := getPullRequestsFromLastTwoWeeks now rest
      (r.1 ++ r2.1, r2.2 + 1)

/-! ### Helper lemmas -/

theorem roundHourNat_dvd (n : Nat) : 3600 ∣ roundHourNat n := by
  unfold roundHourNat
  split <;> omega

theorem roundHourNat_close (n : Nat) : 2 * ((roundHourNat n : Int) - (n : Int)).natAbs ≤ 3600 := by
  unfold roundHourNat
  split <;> omega

theorem roundHour_dvd (d : Int) : (3600 : Int) ∣ roundHour d := by
  unfold roundHour
  split
  · have h := roundHourNat_dvd d.toNat
    omega
  · have h := roundHourNat_dvd (-d).toNat
    omega

theorem roundHour_close (d : Int) : 2 * (roundHour d - d).natAbs ≤ 3600 := by
  unfold roundHour
  split
  · have h := roundHourNat_close d.toNat
    omega
  · have h := roundHourNat_close (-d).toNat
    omega

theorem roundHour_nonpos {d : Int} (h : d ≤ 0) : roundHour d ≤ 0 := by
  have h0 : roundHourNat 0 = 0 := by decide
  unfold roundHour
  split
  · have hz : d.toNat = 0 := by omega
    rw [hz, h0]
    omega
  · omega

theorem mapGet_mapSet_self (m : List (String × Nat)) (k : String) (v : Nat) :
    mapGet k (mapSet m k v) = some v := by
  induction m with
  | nil => simp [mapSet, mapGet]
  | cons p rest ih =>
    obtain ⟨k0, v0⟩ := p
    by_cases h : k0 = k <;> simp [mapSet, mapGet, h, ih]

theorem mapGet_mapSet_ne (m : List (String × Nat)) (k k' : String) (v : Nat) (h : k ≠ k') :
    mapGet k' (mapSet m k v) = mapGet k' m := by
  induction m with
  | nil => simp [mapSet, mapGet, h]
  | cons p rest ih =>
    obtain ⟨k0, v0⟩ := p
    by_cases h0 : k0 = k
    · subst h0
      simp [mapSet, mapGet, h]
    · have h2 : ¬ k' = k := fun hh => h hh.symm
      by_cases h1 : k0 = k' <;> simp [mapSet, mapGet, h0, h1, h2, ih]

theorem length_filter_add_length_filter_not {α : Type} (p : α → Bool) (l : List α) :
    (l.filter p).length + (l.filter (fun a => ! p a)).length = l.length := by
  induction l with
  | nil => rfl
  | cons a t ih =>
    cases h : p a <;> simp [List.filter_cons, h, ← ih] <;> omega

theorem insertDesc_perm (e : Timeline) (l : List Timeline) :
    (insertDesc e l).Perm (e :: l) := by
  induction l with
  | nil => exact List.Perm.refl _
  | cons x xs ih =>
    by_cases h : effectiveTime x ≤ effectiveTime e
    · simp [insertDesc, h]
    · simp only [insertDesc, if_neg h]
      exact (ih.cons x).trans (List.Perm.swap e x xs)

theorem sortEventsDesc_perm (l : List Timeline) : (sortEventsDesc l).Perm l := by
  induction l with
  | nil => exact List.Perm.refl _
  | cons x xs ih =>
    exact (insertDesc_perm x (sortEventsDesc xs)).trans (ih.cons x)

theorem insertDesc_pairwise (e : Timeline) (l : List Timeline)
    (h : l.Pairwise (fun a b => effectiveTime b ≤ effectiveTime a)) :
    (insertDesc e l).Pairwise (fun a b => effectiveTime b ≤ effectiveTime a) := by
  induction l with
  | nil => simp [insertDesc]
  | cons x xs ih =>
    rcases List.pairwise_cons.mp h with ⟨hx, hxs⟩
    by_cases hc : effectiveTime x ≤ effectiveTime e
    · simp only [insertDesc, if_pos hc]
      refine List.pairwise_cons.mpr ⟨?_, h⟩
      intro y hy
      rcases List.mem_cons.mp hy with rfl | hy'
      · exact hc
      · exact le_trans (hx y hy') hc
    · simp only [insertDesc, if_neg hc]
      refine List.pairwise_cons.mpr ⟨?_, ih hxs⟩
      intro y hy
      rcases List.mem_cons.mp ((insertDesc_perm e xs).mem_iff.mp hy) with rfl | hy'
      · omega
      · exact hx y hy'

theorem sortEventsDesc_pairwise (l : List Timeline) :
    (sortEventsDesc l).Pairwise (fun a b => effectiveTime b ≤ effectiveTime a) := by
  induction l with
  | nil => simp [sortEventsDesc]
  | cons x xs ih => exact insertDesc_pairwise x (sortEventsDesc xs) ih

theorem scanTimeline_no_reviewed (l : List Timeline) (trr : Nat) (first : Bool)
    (h : ∀ e ∈ l, e.event ≠ eventReviewed) :
    (scanTimeline l trr first).2.1 = 0 ∧ (scanTimeline l trr first).2.2 = false := by
  induction l generalizing trr first with
  | nil => exact ⟨rfl, rfl⟩
  | cons e rest ih =>
    have hne : e.event ≠ eventReviewed := h e (List.mem_cons_self e rest)
    simp only [scanTimeline, if_neg hne]
    exact ih _ _ (fun x hx => h x (List.mem_cons_of_mem e hx))

/-! ### Claim C1 — direct-match deployment correlation -/

/-- The single deployment of the C1 scenario: commit `"abc"` deployed at
time 5000. -/
def c1dep : Deployment := ⟨"abc", 5000⟩

/-- The single pull request of the C1 scenario: merge commit `"abc"`, which
directly matches the deployment. -/
def c1pr : PullRequest := ⟨10, 20, "abc", "closed", true, "feat", []⟩

/-- C1: the claim states that a pull request whose merge-commit SHA directly
matches a deployment appears in the correlator's map, keyed by that SHA and
mapped to the deployment's creation time.  Evaluating the code on a direct
match shows the opposite: the `else`-branch of `getDeploymentTimesForSHA`
never stores directly matched SHAs, the returned map is empty, and the pull
request is consequently processed with `WasDeployed = false`. -/
theorem c1_direct_match_missing :
    getDeploymentTimesForSHA [c1dep] [c1pr] = []
    ∧ mapGet "abc" (getDeploymentTimesForSHA [c1dep] [c1pr]) = none
    ∧ (processPullRequest (getDeploymentTimesForSHA [c1dep] [c1pr]) c1pr).wasDeployed = false := by
  decide

/-! ### Claim C2 — timeline scan with the reviewed event first -/

/-- The reviewed event of the C2 scenario, submitted at `t3 = 10000`. -/
def c2reviewed : Timeline := ⟨eventReviewed, 0, 10000⟩

/-- The review-requested event of the C2 scenario, created at `t1 = 5000`. -/
def c2requested : Timeline := ⟨eventReviewRequested, 5000, 0⟩

/-- The commit event of the C2 scenario, carrying no timestamp. -/
def c2commit : Timeline := ⟨"committed", 0, 0⟩

/-- The pull request of the C2 scenario, created at time 100 with the three
timeline events (arrival order scrambled). -/
def c2pr : PullRequest := ⟨100, 20000, "c2sha", "closed", true, "feat", [c2requested, c2commit, c2reviewed]⟩

/-- C2: the claim states that reconstruction returns
`timeReviewRequested = t1 = 5000` and `timeFirstReviewed = t3 = 10000` even
though the reviewed event sorts first.  Evaluating the code: the sort indeed
yields `[reviewed, review_requested, commit]`, but the scan `break`s at the
reviewed event — the first event it sees — so `timeReviewRequested` keeps the
pull request's creation time 100 and the review-requested event at `t1` is
never examined. -/
theorem c2_scan_misses_request :
    sortEventsDesc c2pr.timeline = [c2reviewed, c2requested, c2commit]
    ∧ scanTimeline (sortEventsDesc c2pr.timeline) c2pr.createdAt true = (100, 10000, true)
    ∧ (scanTimeline (sortEventsDesc c2pr.timeline) c2pr.createdAt true).1 ≠ 5000 := by
  decide

/-! ### Claim C3 — aggregation over batches with no reviewed item -/

/-- An unreviewed pull request (empty timeline) for the C3 scenario. -/
def c3pr : PullRequest := ⟨10, 20, "c3sha", "closed", true, "feat", []⟩

/-- C3: the claim states that the aggregator does not crash on batches with
no reviewed item and reports `totalPullRequests` as the batch size.
Evaluating the code: for the empty batch and for a one-element unreviewed
batch, `reviewedPullRequests` is zero and the division
`totalReviewTime / reviewedPullRequests` is an integer division by zero — a
runtime panic in Go, modelled here as `none`: no `Metrics` value is produced
at all. -/
theorem c3_division_by_zero :
    analyzePullRequests [] [] = none ∧ analyzePullRequests [] [c3pr] = none := by
  decide

/-! ### Claim C7 — unreviewed pull requests -/

/-- A pull request with no timeline events, created at time 7200, for the C7
scenario. -/
def c7pr : PullRequest := ⟨7200, 300, "c7sha", "closed", true, "feat", []⟩

/-- C7 counterexample: the claim states that a pull request with no reviewed
event gets `wasReviewed = false` and `timeToReview` zero.  On a pull request
created at 7200 with an empty timeline, `wasReviewed` is indeed false but
`timeToReview` is `roundHour(0 - 7200) = -7200`, not zero: the zero value of
`timeReviewed` is subtracted from the non-zero reference time. -/
theorem c7_counterexample :
    (∀ e ∈ c7pr.timeline, e.event ≠ eventReviewed)
    ∧ (processPullRequest [] c7pr).wasReviewed = false
    ∧ (processPullRequest [] c7pr).timeToReview ≠ 0 := by
  decide

/-- C7 amended: for every pull request whose timeline contains no reviewed
event, the constructed statistics have `wasReviewed = false`, and
`timeToReview` holds the rounded difference from the reference time to the
zero timestamp — a non-positive garbage value (zero only when the reference
time itself is zero) rather than zero in general. -/
theorem c7_amended (deployTimes : List (String × Nat)) (pr : PullRequest)
    (h : ∀ e ∈ pr.timeline, e.event ≠ eventReviewed) :
    (processPullRequest deployTimes pr).wasReviewed = false
    ∧ (processPullRequest deployTimes pr).timeToReview
        = roundHour (0 - ((scanTimeline (getAllTimelineEventsForPullRequest pr)
            pr.createdAt true).1 : Int))
    ∧ (processPullRequest deployTimes pr).timeToReview ≤ 0 := by
  have h' : ∀ e ∈ getAllTimelineEventsForPullRequest pr, e.event ≠ eventReviewed := by
    intro e he
    exact h e ((sortEventsDesc_perm pr.timeline).mem_iff.mp he)
  have hscan := scanTimeline_no_reviewed (getAllTimelineEventsForPullRequest pr)
    pr.createdAt true h'
  refine ⟨?_, ?_, ?_⟩
  · simp only [processPullRequest]
    exact hscan.2
  · simp [processPullRequest, hscan.1]
  · simp only [processPullRequest, hscan.1]
    exact roundHour_nonpos (by omega)

/-- C7 witness: the amended statement evaluated on the concrete unreviewed
pull request of the scenario. -/
theorem c7_amended_witness :
    (∀ e ∈ c7pr.timeline, e.event ≠ eventReviewed)
    ∧ ((processPullRequest [] c7pr).wasReviewed = false
      ∧ (processPullRequest [] c7pr).timeToReview
          = roundHour (0 - ((scanTimeline (getAllTimelineEventsForPullRequest c7pr)
              c7pr.createdAt true).1 : Int))
      ∧ (processPullRequest [] c7pr).timeToReview ≤ 0) :=
  ⟨by decide, c7_amended [] c7pr (by decide)⟩

/-! ### Claim C9 — review-count partition -/

/-- C9: for every batch for which the aggregator produces a `Metrics` value,
the count of reviewed statistics (`pullRequestsWithReview`) plus the count of
unreviewed statistics equals `totalPullRequests` (the batch size).  (When no
item is reviewed the aggregator panics and produces nothing — see C3 — which
is the only way a non-empty batch escapes this identity.) -/
theorem c9_partition (deployments : List Deployment) (prs : List PullRequest) (m : Metrics)
    (h : analyzePullRequests deployments prs = some m) :
    m.pullRequestsWithReview
      + ((prs.map (processPullRequest (getDeploymentTimesForSHA deployments prs))).filter
          (fun s => ! s.wasReviewed)).length
      = m.totalPullRequests := by
  have hpart := length_filter_add_length_filter_not
      (fun s : PullRequestStatistics => s.wasReviewed)
      (prs.map (processPullRequest (getDeploymentTimesForSHA deployments prs)))
  simp only [analyzePullRequests] at h
  split at h
  · exact Option.noConfusion h
  · injection h with h2
    subst h2
    simp only [metricsOf]
    simpa [List.length_map] using hpart

/-- The reviewed pull request of the C9 scenario (one reviewed event at
3600). -/
def c9pra : PullRequest := ⟨0, 7200, "c9a", "closed", true, "feat-a", [⟨"reviewed", 0, 3600⟩]⟩

/-- The unreviewed pull request of the C9 scenario. -/
def c9prb : PullRequest := ⟨0, 3600, "c9b", "closed", true, "feat-b", []⟩

/-- The metrics the aggregator produces on the C9 scenario batch. -/
def c9metrics : Metrics := ⟨1, 1, 1, goIntOfNaN, 2, 0, 1⟩

/-- C9 witness: the partition identity evaluated on a concrete two-element
batch with one reviewed and one unreviewed pull request. -/
theorem c9_partition_witness :
    analyzePullRequests [] [c9pra, c9prb] = some c9metrics
    ∧ c9metrics.pullRequestsWithReview
      + (([c9pra, c9prb].map (processPullRequest (getDeploymentTimesForSHA [] [c9pra, c9prb]))).filter
          (fun s => ! s.wasReviewed)).length
      = c9metrics.totalPullRequests :=
  ⟨by decide, c9_partition [] [c9pra, c9prb] c9metrics (by decide)⟩

/-! ### Claim C10 — deployed-flag invariant -/

theorem mapSet_values_nonzero (m : List (String × Nat)) (k : String) (v : Nat)
    (hm : ∀ k' t, mapGet k' m = some t → t ≠ 0) (hv : v ≠ 0) :
    ∀ k' t, mapGet k' (mapSet m k v) = some t → t ≠ 0 := by
  intro k' t hget
  by_cases hk : k = k'
  · subst hk
    rw [mapGet_mapSet_self] at hget
    injection hget with hv2
    omega
  · rw [mapGet_mapSet_ne m k k' v hk] at hget
    exact hm k' t hget

theorem correlateWalk_values_nonzero (depShas : List (String × Nat)) :
    ∀ (prs : List PullRequest) (acc : List (String × Nat)) (cur : Nat),
    (∀ k t, mapGet k acc = some t → t ≠ 0) →
    ∀ k t, mapGet k (correlateWalk depShas prs acc cur) = some t → t ≠ 0 := by
  intro prs
  induction prs with
  | nil => intro acc cur hacc; simpa [correlateWalk] using hacc
  | cons pr rest ih =>
    intro acc cur hacc
    cases hm : mapGet pr.mergeCommitSHA depShas with
    | some v => simpa [correlateWalk, hm] using ih acc v hacc
    | none =>
      by_cases hc : cur ≠ 0
      · simpa [correlateWalk, hm, hc] using
          ih (mapSet acc pr.mergeCommitSHA cur) cur
            (mapSet_values_nonzero acc pr.mergeCommitSHA cur hacc hc)
      · simpa [correlateWalk, hm, hc] using ih acc cur hacc

/-- C10: every value stored in the correlator's map is non-zero; therefore a
processed pull request has `wasDeployed = true` exactly when its merge-commit
SHA is a key of the map, and in that case `timeToProduction` is the rounded
difference from the reference time to the mapped deployment time. -/
theorem c10_deployed_invariant (deployments : List Deployment) (prs : List PullRequest)
    (pr : PullRequest) :
    (∀ sha t, mapGet sha (getDeploymentTimesForSHA deployments prs) = some t → t ≠ 0)
    ∧ ((processPullRequest (getDeploymentTimesForSHA deployments prs) pr).wasDeployed = true
        ↔ (mapGet pr.mergeCommitSHA (getDeploymentTimesForSHA deployments prs)).isSome = true)
    ∧ (∀ t, mapGet pr.mergeCommitSHA (getDeploymentTimesForSHA deployments prs) = some t →
        (processPullRequest (getDeploymentTimesForSHA deployments prs) pr).timeToProduction
          = roundHour ((t : Int) - ((scanTimeline (getAllTimelineEventsForPullRequest pr)
              pr.createdAt true).1 : Int))) := by
  have hvals : ∀ sha t, mapGet sha (getDeploymentTimesForSHA deployments prs) = some t → t ≠ 0 :=
    correlateWalk_values_nonzero (buildDeploymentShas deployments) prs [] 0
      (by intro k t hk; simp [mapGet] at hk)
  refine ⟨hvals, ?_, ?_⟩
  · cases hm : mapGet pr.mergeCommitSHA (getDeploymentTimesForSHA deployments prs) with
    | none => simp [processPullRequest, hm]
    | some t =>
      have ht := hvals pr.mergeCommitSHA t hm
      simp [processPullRequest, hm, ht]
  · intro t hm
    simp [processPullRequest, hm]

/-- The deployment list of the C10 scenario. -/
def c10deps : List Deployment := [⟨"d1", 50⟩]

/-- The walked batch of the C10 scenario: a direct match followed by a
forward-filled pull request. -/
def c10prs : List PullRequest :=
  [⟨0, 60, "d1", "closed", true, "feat-m", []⟩, ⟨0, 70, "q", "closed", true, "feat-n", []⟩]

/-- The forward-filled pull request of the C10 scenario. -/
def c10pr : PullRequest := ⟨0, 70, "q", "closed", true, "feat-n", []⟩

/-- C10 witness: the invariant evaluated on a concrete correlation, showing
`wasDeployed = true` for a key of the map. -/
theorem c10_deployed_invariant_witness :
    (processPullRequest (getDeploymentTimesForSHA c10deps c10prs) c10pr).wasDeployed = true :=
  ((c10_deployed_invariant c10deps c10prs c10pr).2.1).mpr (by decide)

/-! ### Claim C6 — descending effective-time sort -/

/-- C6: before the scan, the reconstructor sorts the retrieved events into a
permutation that is non-increasing in effective time, where the effective
time is the creation time whenever one is present, the submission time for
events without a creation time (in particular review events, which carry
only a submission time), and zero for events carrying neither. -/
theorem c6_sort_descending (l : List Timeline)
    (hrev : ∀ e ∈ l, e.event = eventReviewed → e.createdAt = 0) :
    (sortEventsDesc l).Perm l
    ∧ (sortEventsDesc l).Pairwise (fun a b => effectiveTime b ≤ effectiveTime a)
    ∧ (∀ e ∈ l, (e.createdAt ≠ 0 → effectiveTime e = e.createdAt)
        ∧ (e.event = eventReviewed → effectiveTime e = e.submittedAt)
        ∧ (e.createdAt = 0 → e.submittedAt = 0 → effectiveTime e = 0)) := by
  refine ⟨sortEventsDesc_perm l, sortEventsDesc_pairwise l, ?_⟩
  intro e he
  refine ⟨?_, ?_, ?_⟩
  · intro h0
    simp [effectiveTime, h0]
  · intro hr
    simp [effectiveTime, hrev e he hr]
  · intro h0 h1
    simp [effectiveTime, h0, h1]

/-- The three events of the C6 scenario: a review (submission time only), a
review request (creation time only) and a commit (no timestamp). -/
def c6events : List Timeline :=
  [⟨"reviewed", 0, 300⟩, ⟨"review_requested", 200, 0⟩, ⟨"committed", 0, 0⟩]

/-- C6 witness: the sort contract evaluated on the concrete three-event
scenario. -/
theorem c6_sort_descending_witness :
    (∀ e ∈ c6events, e.event = eventReviewed → e.createdAt = 0)
    ∧ ((sortEventsDesc c6events).Perm c6events
      ∧ (sortEventsDesc c6events).Pairwise (fun a b => effectiveTime b ≤ effectiveTime a)
      ∧ (∀ e ∈ c6events, (e.createdAt ≠ 0 → effectiveTime e = e.createdAt)
          ∧ (e.event = eventReviewed → effectiveTime e = e.submittedAt)
          ∧ (e.createdAt = 0 → e.submittedAt = 0 → effectiveTime e = 0))) :=
  ⟨by decide, c6_sort_descending c6events (by decide)⟩

/-! ### Claim C4 — forward fill and exclusion -/

theorem correlateWalk_frozen (depShas : List (String × Nat)) (sha : String) :
    ∀ (prs : List PullRequest) (acc : List (String × Nat)) (cur : Nat),
    (∀ pr ∈ prs, pr.mergeCommitSHA ≠ sha) →
    mapGet sha (correlateWalk depShas prs acc cur) = mapGet sha acc := by
  intro prs
  induction prs with
  | nil => intro acc cur _; rfl
  | cons pr rest ih =>
    intro acc cur hne
    have hpr : pr.mergeCommitSHA ≠ sha := hne pr (List.mem_cons_self pr rest)
    have hrest : ∀ p ∈ rest, p.mergeCommitSHA ≠ sha :=
      fun p hp => hne p (List.mem_cons_of_mem pr hp)
    cases hm : mapGet pr.mergeCommitSHA depShas with
    | some v => simpa [correlateWalk, hm] using ih acc v hrest
    | none =>
      by_cases hc : cur ≠ 0
      · simp only [correlateWalk, hm, if_pos hc]
        rw [ih _ cur hrest, mapGet_mapSet_ne acc pr.mergeCommitSHA sha cur hpr]
      · simpa [correlateWalk, hm, hc] using ih acc cur hrest

theorem correlateWalk_nonmatching (depShas : List (String × Nat)) (target : PullRequest)
    (post : List PullRequest)
    (htgt : mapGet target.mergeCommitSHA depShas = none)
    (hpost : ∀ p ∈ post, p.mergeCommitSHA ≠ target.mergeCommitSHA) :
    ∀ (pre : List PullRequest) (acc : List (String × Nat)) (cur : Nat),
    (∀ p ∈ pre, p.mergeCommitSHA ≠ target.mergeCommitSHA) →
    mapGet target.mergeCommitSHA acc = none →
    mapGet target.mergeCommitSHA (correlateWalk depShas (pre ++ target :: post) acc cur)
      = if lastMatchFrom depShas cur pre = 0 then none
        else some (lastMatchFrom depShas cur pre) := by
  intro pre
  induction pre with
  | nil =>
    intro acc cur _ hacc
    simp only [List.nil_append, correlateWalk, htgt, lastMatchFrom, List.foldl_nil]
    by_cases hc : cur ≠ 0
    · simp only [if_pos hc, if_neg hc]
      rw [correlateWalk_frozen depShas target.mergeCommitSHA post _ cur hpost,
        mapGet_mapSet_self]
    · have hc0 : cur = 0 := by omega
      subst hc0
      rw [if_neg (by omega : ¬ (0 : Nat) ≠ 0), if_pos rfl,
        correlateWalk_frozen depShas target.mergeCommitSHA post acc 0 hpost]
      exact hacc
  | cons p pre' ih =>
    intro acc cur hpre hacc
    have hp : p.mergeCommitSHA ≠ target.mergeCommitSHA := hpre p (List.mem_cons_self p pre')
    have hpre' : ∀ q ∈ pre', q.mergeCommitSHA ≠ target.mergeCommitSHA :=
      fun q hq => hpre q (List.mem_cons_of_mem p hq)
    cases hm : mapGet p.mergeCommitSHA depShas with
    | some v =>
      simp only [List.cons_append, correlateWalk, hm, lastMatchFrom, List.foldl_cons]
      exact ih acc v hpre' hacc
    | none =>
      by_cases hc : cur ≠ 0
      · simp only [List.cons_append, correlateWalk, hm, if_pos hc, lastMatchFrom,
          List.foldl_cons]
        exact ih (mapSet acc p.mergeCommitSHA cur) cur hpre'
          (by rw [mapGet_mapSet_ne acc p.mergeCommitSHA target.mergeCommitSHA cur hp]; exact hacc)
      · simp only [List.cons_append, correlateWalk, hm, if_neg hc, lastMatchFrom,
          List.foldl_cons]
        exact ih acc cur hpre' hacc

theorem foldl_mapSet_none (sha : String) :
    ∀ (deployments : List Deployment) (acc : List (String × Nat)),
    (∀ d ∈ deployments, d.sha ≠ sha) → mapGet sha acc = none →
    mapGet sha (deployments.foldl (fun m d => mapSet m d.sha d.createdAt) acc) = none := by
  intro deps
  induction deps with
  | nil => intro acc _ hacc; simpa using hacc
  | cons d rest ih =>
    intro acc h hacc
    simp only [List.foldl_cons]
    refine ih _ (fun x hx => h x (List.mem_cons_of_mem d hx)) ?_
    rw [mapGet_mapSet_ne acc d.sha sha d.createdAt (h d (List.mem_cons_self d rest))]
    exact hacc

/-- C4: walking the pull requests in the given order, a pull request whose
merge-commit SHA matches no deployment (`target`, preceded by `pre` and
followed by `post` in the walk) is a key of the output map exactly when the
walk's "most recent known deployment time" (`lastMatchTime`, zero while not
yet established) is non-zero after the prefix, in which case it maps to that
time; in particular every such pull request encountered before any
deployment has been established is absent from the mapping. -/
theorem c4_forward_fill (deployments : List Deployment) (pre post : List PullRequest)
    (target : PullRequest)
    (hmatch : ∀ d ∈ deployments, d.sha ≠ target.mergeCommitSHA)
    (huniq : ∀ p ∈ pre ++ post, p.mergeCommitSHA ≠ target.mergeCommitSHA) :
    mapGet target.mergeCommitSHA (getDeploymentTimesForSHA deployments (pre ++ target :: post))
      = if lastMatchTime (buildDeploymentShas deployments) pre = 0 then none
        else some (lastMatchTime (buildDeploymentShas deployments) pre) := by
  have htgt : mapGet target.mergeCommitSHA (buildDeploymentShas deployments) = none :=
    foldl_mapSet_none target.mergeCommitSHA deployments [] hmatch rfl
  have hpre : ∀ p ∈ pre, p.mergeCommitSHA ≠ target.mergeCommitSHA :=
    fun p hp => huniq p (List.mem_append_left post hp)
  have hpost : ∀ p ∈ post, p.mergeCommitSHA ≠ target.mergeCommitSHA :=
    fun p hp => huniq p (List.mem_append_right pre hp)
  exact correlateWalk_nonmatching (buildDeploymentShas deployments) target post htgt hpost
    pre [] 0 hpre rfl

/-- The deployment list of the C4 scenario: only commit `"b4"` is deployed,
at time 7. -/
def c4deps : List Deployment := [⟨"b4", 7⟩]

/-- The walk prefix of the C4 scenario: a non-matching pull request followed
by the directly matching one. -/
def c4pre : List PullRequest :=
  [⟨0, 9, "a4", "closed", true, "feat-a", []⟩, ⟨0, 8, "b4", "closed", true, "feat-b", []⟩]

/-- The walk suffix of the C4 scenario. -/
def c4post : List PullRequest := [⟨0, 6, "d4", "closed", true, "feat-d", []⟩]

/-- The non-matching pull request of the C4 scenario, positioned after the
match. -/
def c4target : PullRequest := ⟨0, 7, "c4", "closed", true, "feat-c", []⟩

/-- C4 witness: the forward-fill characterization evaluated on a concrete
walk where the prefix establishes deployment time 7. -/
theorem c4_forward_fill_witness :
    ((∀ d ∈ c4deps, d.sha ≠ c4target.mergeCommitSHA)
      ∧ (∀ p ∈ c4pre ++ c4post, p.mergeCommitSHA ≠ c4target.mergeCommitSHA))
    ∧ mapGet c4target.mergeCommitSHA
        (getDeploymentTimesForSHA c4deps (c4pre ++ c4target :: c4post))
      = if lastMatchTime (buildDeploymentShas c4deps) c4pre = 0 then none
        else some (lastMatchTime (buildDeploymentShas c4deps) c4pre) :=
  ⟨⟨by decide, by decide⟩, c4_forward_fill c4deps c4pre c4post c4target (by decide) (by decide)⟩

/-! ### Claim C5 — selector window semantics -/

theorem selectorPage_eq (now : Nat) (l : List PullRequest) :
    selectorPage now l
      = ((l.takeWhile (fun p => ! stopsSelector now p)).filter (fun p => decide (p.mergedAt ≠ 0)),
         l.any (stopsSelector now)) := by
  induction l with
  | nil => rfl
  | cons p rest ih =>
    by_cases h0 : p.mergedAt = 0
    · have hs : stopsSelector now p = false := by simp [stopsSelector, h0]
      simp [selectorPage, h0, hs, List.takeWhile_cons, List.filter_cons, ih]
    · by_cases h1 : outsideWindow now p = true
      · have hs : stopsSelector now p = true := by simp [stopsSelector, h0, h1]
        simp [selectorPage, h0, h1, hs, List.takeWhile_cons]
      · have h1f : outsideWindow now p = false := by
          cases ho : outsideWindow now p
          · rfl
          · exact absurd ho h1
        have hs : stopsSelector now p = false := by simp [stopsSelector, h1f]
        simp [selectorPage, h0, h1f, hs, List.takeWhile_cons, List.filter_cons, ih]

theorem takeWhile_append_stops {α : Type} (s : α → Bool) (X : List α) :
    ∀ l : List α, l.any s = true →
    (l ++ X).takeWhile (fun p => ! s p) = l.takeWhile (fun p => ! s p) := by
  intro l
  induction l with
  | nil => intro h; exact absurd h (by simp)
  | cons a t ih =>
    intro h
    cases hsa : s a
    · have ht : t.any s = true := by simpa [hsa] using h
      simp [List.takeWhile_cons, hsa, ih ht]
    · simp [List.takeWhile_cons, hsa]

theorem takeWhile_append_continues {α : Type} (s : α → Bool) (X : List α) :
    ∀ l : List α, l.any s = false →
    (l ++ X).takeWhile (fun p => ! s p) = l ++ X.takeWhile (fun p => ! s p) := by
  intro l
  induction l with
  | nil => intro _; rfl
  | cons a t ih =>
    intro h
    have hsa : s a = false := by
      cases hsa : s a
      · rfl
      · simp [hsa] at h
    have ht : t.any s = false := by simpa [hsa] using h
    simp [List.takeWhile_cons, hsa, ih ht]

theorem selector_fst (now : Nat) :
    ∀ pages : List (List PullRequest),
    (getPullRequestsFromLastTwoWeeks now pages).1
      = ((pages.flatten).takeWhile (fun p => ! stopsSelector now p)).filter
          (fun p => decide (p.mergedAt ≠ 0)) := by
  intro pages
  induction pages with
  | nil => rfl
  | cons pg rest ih =>
    cases hany : pg.any (stopsSelector now)
    · have hcont := takeWhile_append_continues (stopsSelector now) rest.flatten pg hany
      have hpg : pg.takeWhile (fun p => ! stopsSelector now p) = pg := by
        simpa using takeWhile_append_continues (stopsSelector now) [] pg hany
      have hstep : (getPullRequestsFromLastTwoWeeks now (pg :: rest)).1
          = (selectorPage now pg).1 ++ (getPullRequestsFromLastTwoWeeks now rest).1 := by
        simp [getPullRequestsFromLastTwoWeeks, selectorPage_eq, hany]
      have h1 : (selectorPage now pg).1 = pg.filter (fun p => decide (p.mergedAt ≠ 0)) := by
        rw [selectorPage_eq]
        show (pg.takeWhile (fun p => ! stopsSelector now p)).filter
          (fun p => decide (p.mergedAt ≠ 0)) = _
        rw [hpg]
      rw [hstep, h1, ih, List.flatten_cons, hcont, List.filter_append]
    · have hstop := takeWhile_append_stops (stopsSelector now) rest.flatten pg hany
      have hstep : (getPullRequestsFromLastTwoWeeks now (pg :: rest)).1
          = (selectorPage now pg).1 := by
        simp [getPullRequestsFromLastTwoWeeks, selectorPage_eq, hany]
      have h1 : (selectorPage now pg).1
          = (pg.takeWhile (fun p => ! stopsSelector now p)).filter
              (fun p => decide (p.mergedAt ≠ 0)) := by
        rw [selectorPage_eq]
      rw [hstep, h1, List.flatten_cons, hstop]

theorem selector_count_le (now : Nat) :
    ∀ pages : List (List PullRequest),
    (getPullRequestsFromLastTwoWeeks now pages).2 ≤ pages.length := by
  intro pages
  induction pages with
  | nil => simp [getPullRequestsFromLastTwoWeeks]
  | cons pg rest ih =>
    have hlen : (pg :: rest).length = rest.length + 1 := rfl
    cases hsp : (selectorPage now pg).2
    · have h1 : (getPullRequestsFromLastTwoWeeks now (pg :: rest)).2
          = (getPullRequestsFromLastTwoWeeks now rest).2 + 1 := by
        simp [getPullRequestsFromLastTwoWeeks, hsp]
      omega
    · have h1 : (getPullRequestsFromLastTwoWeeks now (pg :: rest)).2 = 1 := by
        simp [getPullRequestsFromLastTwoWeeks, hsp]
      omega

theorem selector_stop_bound (now : Nat) :
    ∀ (pages : List (List PullRequest)) (i : Nat) (hi : i < pages.length),
    (∃ p ∈ pages.get ⟨i, hi⟩, stopsSelector now p = true) →
    (getPullRequestsFromLastTwoWeeks now pages).2 ≤ i + 1 := by
  intro pages
  induction pages with
  | nil => intro i hi; exact absurd hi (by simp)
  | cons pg rest ih =>
    intro i hi hex
    cases i with
    | zero =>
      have hany : pg.any (stopsSelector now) = true := by
        rcases hex with ⟨p, hp, hsp⟩
        exact List.any_eq_true.mpr ⟨p, hp, hsp⟩
      have h2 : (selectorPage now pg).2 = true := by rw [selectorPage_eq]; exact hany
      have h1 : (getPullRequestsFromLastTwoWeeks now (pg :: rest)).2 = 1 := by
        simp [getPullRequestsFromLastTwoWeeks, h2]
      omega
    | succ j =>
      cases hsp : (selectorPage now pg).2
      · have hj : j < rest.length := by simpa using hi
        have hex' : ∃ p ∈ rest.get ⟨j, hj⟩, stopsSelector now p = true := hex
        have hb := ih j hj hex'
        have h1 : (getPullRequestsFromLastTwoWeeks now (pg :: rest)).2
            = (getPullRequestsFromLastTwoWeeks now rest).2 + 1 := by
          simp [getPullRequestsFromLastTwoWeeks, hsp]
        omega
      · have h1 : (getPullRequestsFromLastTwoWeeks now (pg :: rest)).2 = 1 := by
          simp [getPullRequestsFromLastTwoWeeks, hsp]
        omega

theorem takeWhile_filter_eq_filter_inWindow (now : Nat) :
    ∀ l : List PullRequest,
    l.Pairwise (fun a b => a.mergedAt ≠ 0 → b.mergedAt ≠ 0 → b.mergedAt ≤ a.mergedAt) →
    (l.takeWhile (fun p => ! stopsSelector now p)).filter (fun p => decide (p.mergedAt ≠ 0))
      = l.filter (inWindow now) := by
  intro l
  induction l with
  | nil => intro _; rfl
  | cons x xs ih =>
    intro h
    rcases List.pairwise_cons.mp h with ⟨hx, hxs⟩
    by_cases hs : stopsSelector now x = true
    · have hxpair : x.mergedAt ≠ 0 ∧ (now : Int) - (x.mergedAt : Int) ≥ twoWeeksSeconds := by
        simpa [stopsSelector, outsideWindow] using hs
      have hxw : inWindow now x = false := by
        simp [inWindow, outsideWindow, hxpair.1, hxpair.2]
      have hall : xs.filter (inWindow now) = [] := by
        rw [List.filter_eq_nil_iff]
        intro y hy
        by_cases hy0 : y.mergedAt = 0
        · simp [inWindow, hy0]
        · have hle : y.mergedAt ≤ x.mergedAt := hx y hy hxpair.1 hy0
          have hyout : (now : Int) - (y.mergedAt : Int) ≥ twoWeeksSeconds := by
            have := hxpair.2
            unfold twoWeeksSeconds at *
            omega
          simp [inWindow, outsideWindow, hyout]
      simp [List.takeWhile_cons, hs, List.filter_cons, hxw, hall]
    · have hsf : stopsSelector now x = false := by
        cases hh : stopsSelector now x
        · rfl
        · exact absurd hh hs
      by_cases h0 : x.mergedAt = 0
      · have hxw : inWindow now x = false := by simp [inWindow, h0]
        simpa [List.takeWhile_cons, hsf, List.filter_cons, h0, hxw] using ih hxs
      · have hout : outsideWindow now x = false := by
          simpa [stopsSelector, h0] using hsf
        have hxw : inWindow now x = true := by simp [inWindow, h0, hout]
        simpa [List.takeWhile_cons, hsf, List.filter_cons, h0, hxw] using ih hxs

/-- C5: given pages whose (non-null) merge times are in non-increasing order,
the selector returns exactly the pull requests with a non-null merge time
strictly newer than the two-week boundary, in source order (null merge
timestamps are skipped); moreover it never fetches more pages than exist,
and it fetches no page beyond any page that contains a pull request
triggering the early stop. -/
theorem c5_selector_window (now : Nat) (pages : List (List PullRequest))
    (hdesc : pages.flatten.Pairwise
      (fun a b => a.mergedAt ≠ 0 → b.mergedAt ≠ 0 → b.mergedAt ≤ a.mergedAt)) :
    (getPullRequestsFromLastTwoWeeks now pages).1 = pages.flatten.filter (inWindow now)
    ∧ (getPullRequestsFromLastTwoWeeks now pages).2 ≤ pages.length
    ∧ ∀ i (hi : i < pages.length),
        (∃ p ∈ pages.get ⟨i, hi⟩, stopsSelector now p = true) →
        (getPullRequestsFromLastTwoWeeks now pages).2 ≤ i + 1 := by
  refine ⟨?_, selector_count_le now pages, fun i hi hex => selector_stop_bound now pages i hi hex⟩
  rw [selector_fst now pages]
  exact takeWhile_filter_eq_filter_inWindow now pages.flatten hdesc

/-- A merged pull request of the C5 scenario, given a merge time and a SHA. -/
def c5pr (m : Nat) (sha : String) : PullRequest := ⟨0, m, sha, "closed", true, "feat", []⟩

/-- The paginated source of the C5 scenario at reference time 2000000: the
two-week boundary is 790400, page two crosses it mid-page, and page three is
never fetched. -/
def c5pages : List (List PullRequest) :=
  [[c5pr 1900000 "s1", c5pr 0 "s2"],
   [c5pr 1000000 "s3", c5pr 700000 "s4", c5pr 650000 "s5"],
   [c5pr 600000 "s6"]]

/-- C5 witness: the selector contract evaluated on the concrete
boundary-crossing pagination. -/
theorem c5_selector_window_witness :
    (c5pages.flatten.Pairwise
      (fun a b => a.mergedAt ≠ 0 → b.mergedAt ≠ 0 → b.mergedAt ≤ a.mergedAt))
    ∧ ((getPullRequestsFromLastTwoWeeks 2000000 c5pages).1
        = c5pages.flatten.filter (inWindow 2000000)
      ∧ (getPullRequestsFromLastTwoWeeks 2000000 c5pages).2 ≤ c5pages.length
      ∧ ∀ i (hi : i < c5pages.length),
          (∃ p ∈ c5pages.get ⟨i, hi⟩, stopsSelector 2000000 p = true) →
          (getPullRequestsFromLastTwoWeeks 2000000 c5pages).2 ≤ i + 1) :=
  ⟨by decide, c5_selector_window 2000000 c5pages (by decide)⟩

/-! ### Claim C8 — rounding placement -/

/-- A reviewed pull request of the C8 scenario: review time exactly one
hour. -/
def c8pra : PullRequest := ⟨0, 7200, "c8x", "closed", true, "feat-x", [⟨"reviewed", 0, 3600⟩]⟩

/-- A reviewed pull request of the C8 scenario: review time exactly two
hours. -/
def c8prb : PullRequest := ⟨0, 7200, "c8y", "closed", true, "feat-y", [⟨"reviewed", 0, 7200⟩]⟩

/-- C8 counterexample: the claim states that no further rounding or
truncation happens at aggregation time.  For the batch of two reviewed pull
requests whose per-item (already rounded) review durations are 1 and 2
hours, the exact median and the exact average are both 3/2 (twice-median and
sum are 3, count is 2), but the reported `medianReviewTime` and
`averageReviewTime` are 1: the aggregation truncated the half-hour away. -/
theorem c8_counterexample :
    (analyzePullRequests [] [c8pra, c8prb]).map Metrics.averageReviewTime = some 1
    ∧ (analyzePullRequests [] [c8pra, c8prb]).map Metrics.medianReviewTime = some 1
    ∧ reviewHours ([c8pra, c8prb].map
        (processPullRequest (getDeploymentTimesForSHA [] [c8pra, c8prb]))) = [1, 2]
    ∧ twiceMedian [1, 2] = some 3
    ∧ (1 : Int) + 2 = 3
    ∧ ¬ (2 * (1 : Int) = 3) := by
  decide

/-- C8 amended: each per-pull-request duration is rounded to the nearest
whole hour at the point it is computed (the stored fields are multiples of
3600 seconds and within half an hour of the raw difference), but the
aggregation then applies additional truncation toward zero: the average is
the truncating integer division `Int.tdiv` of the summed whole hours by the
reviewed count, and each median is the truncating conversion of the exact
(possibly half-integral) median of the whole-hour values. -/
theorem c8_amended (deployments : List Deployment) (prs : List PullRequest) (m : Metrics)
    (h : analyzePullRequests deployments prs = some m) :
    (∀ s ∈ prs.map (processPullRequest (getDeploymentTimesForSHA deployments prs)),
        (3600 : Int) ∣ s.timeToReview ∧ (3600 : Int) ∣ s.timeToMerge
          ∧ (3600 : Int) ∣ s.timeToProduction)
    ∧ (∀ d : Int, (3600 : Int) ∣ roundHour d ∧ 2 * (roundHour d - d).natAbs ≤ 3600)
    ∧ m.averageReviewTime
        = Int.tdiv
            ((reviewHours (prs.map
              (processPullRequest (getDeploymentTimesForSHA deployments prs)))).foldl (· + ·) 0)
            (((prs.map (processPullRequest (getDeploymentTimesForSHA deployments prs))).filter
              (·.wasReviewed)).length : Int)
    ∧ m.medianReviewTime
        = goMedianInt (reviewHours (prs.map
            (processPullRequest (getDeploymentTimesForSHA deployments prs))))
    ∧ m.medianTimeToMerge
        = goMedianInt (mergeHours (prs.map
            (processPullRequest (getDeploymentTimesForSHA deployments prs))))
    ∧ m.medianLeadTimeForChanges
        = goMedianInt (leadHours (prs.map
            (processPullRequest (getDeploymentTimesForSHA deployments prs)))) := by
  refine ⟨?_, fun d => ⟨roundHour_dvd d, roundHour_close d⟩, ?_⟩
  · intro s hs
    rcases List.mem_map.mp hs with ⟨pr, _, rfl⟩
    exact ⟨roundHour_dvd _, roundHour_dvd _, roundHour_dvd _⟩
  · simp only [analyzePullRequests] at h
    split at h
    · exact Option.noConfusion h
    · injection h with h2
      subst h2
      exact ⟨rfl, rfl, rfl, rfl⟩

/-- The metrics the aggregator produces on the C8 scenario batch. -/
def c8metrics : Metrics := ⟨1, 1, 2, goIntOfNaN, 2, 0, 2⟩

/-- C8 witness: the amended statement evaluated on the concrete two-element
reviewed batch. -/
theorem c8_amended_witness :
    analyzePullRequests [] [c8pra, c8prb] = some c8metrics
    ∧ ((∀ s ∈ [c8pra, c8prb].map
          (processPullRequest (getDeploymentTimesForSHA [] [c8pra, c8prb])),
          (3600 : Int) ∣ s.timeToReview ∧ (3600 : Int) ∣ s.timeToMerge
            ∧ (3600 : Int) ∣ s.timeToProduction)
      ∧ (∀ d : Int, (3600 : Int) ∣ roundHour d ∧ 2 * (roundHour d - d).natAbs ≤ 3600)
      ∧ c8metrics.averageReviewTime
          = Int.tdiv
              ((reviewHours ([c8pra, c8prb].map
                (processPullRequest (getDeploymentTimesForSHA [] [c8pra, c8prb])))).foldl (· + ·) 0)
              ((([c8pra, c8prb].map
                (processPullRequest (getDeploymentTimesForSHA [] [c8pra, c8prb]))).filter
                (·.wasReviewed)).length : Int)
      ∧ c8metrics.medianReviewTime
          = goMedianInt (reviewHours ([c8pra, c8prb].map
              (processPullRequest (getDeploymentTimesForSHA [] [c8pra, c8prb]))))
      ∧ c8metrics.medianTimeToMerge
          = goMedianInt (mergeHours ([c8pra, c8prb].map
              (processPullRequest (getDeploymentTimesForSHA [] [c8pra, c8prb]))))
      ∧ c8metrics.medianLeadTimeForChanges
          = goMedianInt (leadHours ([c8pra, c8prb].map
              (processPullRequest (getDeploymentTimesForSHA [] [c8pra, c8prb]))))) :=
  ⟨by decide, c8_amended [] [c8pra, c8prb] c8metrics (by decide)⟩

end Boots

